import Mathlib

/-!
Verification of the posuer MCP aggregating interposer core against its
natural-language specification.

The Go sources are shallowly embedded:
- `pkg/config` (part_007, capabilities.go): `Capability`, `Server` and the
  enable/disable policy functions (`Disabled`, `Enabled`, `disabled`,
  `CompareCapability`).  Go `map[K]V` values are modelled as association
  lists with unique keys; a nil map versus an empty map is modelled by
  `Option` (Go distinguishes them and so does the policy code).
- `pkg/interposer/items.go`: the capability items, the `transform`
  name-rewriter, and the forwarding behaviour of the handler closures
  (`handleTool`, `handlePrompt`, `handleResource` below give the request
  each closure sends to the backend client).
- the capability registry (part_006): the two indices modelled as functions
  `CapabilityKey → Option String` and `String → Option (List CapabilityKey)`,
  the inner Go set as a list up to membership.
- the engine (part_005): `AddBackend`, `removeBackend`,
  `RemoveTrackedCapabilities`, `UpdateCapabilityConfig` (its tool slice),
  `processDisabledTools`, `processNewTools`, `sendNotifications`, modelled
  as pure state transformers over `InterpState`.  RPC outcomes (factory,
  Initialize, List pages) are explicit parameters; calls to `Close` are
  recorded in the `closed` trace; notifications are returned as lists.

Transport-only fields of `Server` (command, args, env, url, container) are
omitted: none of the embedded functions read them.  The engine embedding
covers the tool pipeline; the prompt/resource/template pipelines reuse the
same generic `transform`/`addItems` code and their handler closures are
verified separately through `handlePrompt`/`handleResource`.
-/

namespace Posuer

/-- Lookup in a Go map modelled as an association list with unique keys. -/
def mapLookup {α : Type} (m : List (String × α)) (k : String) : Option α :=
  (m.find? (fun p => p.1 == k)).map (fun p => p.2)

/-- Go map assignment. -/
def mapInsert {α : Type} (m : List (String × α)) (k : String) (v : α) :
    List (String × α) :=
  (k, v) :: m.filter (fun p => p.1 != k)

/-- Go map `delete`. -/
def mapErase {α : Type} (m : List (String × α)) (k : String) :
    List (String × α) :=
  m.filter (fun p => p.1 != k)

/-- Go `strings.TrimPrefix s pfx`: drop `pfx` from the front of `s` when it
is a prefix, otherwise return `s` unchanged (named `trimPfx` here). -/
def trimPfx (s pfx : String) : String :=
  if pfx.data.isPrefixOf s.data then ⟨s.data.drop pfx.data.length⟩ else s

/-- Policy object from `pkg/config/capabilities.go`: `All` flag plus the
by-type name lists.  `capabilities = none` models a nil Go map (as produced
by `unmarshalBool`), `some m` a non-nil map. -/
structure Capability where
  all : Bool
  capabilities : Option (List (String × List String))
deriving DecidableEq

/-- Lookup `m[capability]` where the map pointer itself may be nil. -/
def capLookup (c : Option (List (String × List String))) (k : String) :
    Option (List String) :=
  match c with
  | none => none
  | some m => mapLookup m k

/-- Server configuration (part_007).  Transport fields are omitted: the
embedded policy and engine functions never read them. -/
structure Server where
  name : String
  enable : Option Capability := none
  disable : Option Capability := none
deriving DecidableEq

/-- Go `Server.isExplicitlyDisabled`: disable policy present with `All`. -/
def Server.isExplicitlyDisabled (s : Server) : Bool :=
  match s.disable with
  | some d => d.all
  | none => false

/-- Go `Server.hasEmptyEnabledCapabilities`: enable present, `All` false,
and the by-type map non-nil but with no entries. -/
def Server.hasEmptyEnabledCapabilities (s : Server) : Bool :=
  match s.enable with
  | some e =>
    !e.all &&
      (match e.capabilities with
       | some m => m.length == 0
       | none => false)
  | none => false

/-- Go `Server.hasAllEmptyCapabilityLists`: enable present, `All` false,
by-type map non-empty, and every name list inside empty. -/
def Server.hasAllEmptyCapabilityLists (s : Server) : Bool :=
  match s.enable with
  | none => false
  | some e =>
    if e.all then false
    else
      match e.capabilities with
      | none => false
      | some m =>
        if m.length == 0 then false
        else m.all (fun p => p.2.length == 0)

/-- Go `Server.Disabled`. -/
def Server.Disabled (s : Server) : Bool :=
  s.isExplicitlyDisabled || s.hasEmptyEnabledCapabilities ||
    s.hasAllEmptyCapabilityLists

/-- Go `Server.disabled(capability, name)` (lower-case helper). -/
def Server.disabled (s : Server) (capability name : String) : Bool :=
  if s.Disabled then true
  else
    match s.disable with
    | none => false
    | some d =>
      if d.all then true
      else
        match capLookup d.capabilities capability with
        | some disabledNames => disabledNames.contains name
        | none => false

/-- Go `Server.Enabled(capability, name)`. -/
def Server.Enabled (s : Server) (capability name : String) : Bool :=
  if s.Disabled then false
  else if s.disabled capability name then false
  else
    match s.enable with
    | none => true
    | some e =>
      if e.all then true
      else
        match e.capabilities with
        | none => true
        | some m =>
          match mapLookup m capability with
          | some enabledNames => enabledNames.contains name
          | none => if m.length > 0 then false else true

/-- Go `makeStringSet` (capabilities.go): a list viewed as a set. -/
def makeStringSet (items : List String) : List String :=
  items.eraseDups

/-- Go `areSetsEqual`. -/
def areSetsEqual (a b : List String) : Bool :=
  a.length == b.length && a.all (fun x => b.contains x)

/-- Go `areCapabilityListsEqual`: order-insensitive list comparison. -/
def areCapabilityListsEqual (a b : List String) : Bool :=
  a.length == b.length && areSetsEqual (makeStringSet a) (makeStringSet b)

/-- Go `areCapabilityMapsEqual`; a nil map compares like an empty one. -/
def areCapabilityMapsEqual (x y : Option (List (String × List String))) : Bool :=
  (x.getD []).length == (y.getD []).length &&
    (x.getD []).all (fun p =>
      match mapLookup (y.getD []) p.1 with
      | some l2 => areCapabilityListsEqual p.2 l2
      | none => false)

/-- Go `CompareCapability` (capabilities.go lines 231-250). -/
def CompareCapability : Option Capability → Option Capability → Bool
  | none, none => true
  | none, some _ => false
  | some _, none => false
  | some f, some s =>
    if f.all != s.all then false
    else if f.all then true
    else areCapabilityMapsEqual f.capabilities s.capabilities

/-- Server as produced by parsing the YAML `enable: false`:
`unmarshalBool` (capabilities.go lines 100-115) sets `All = false` and
`Capabilities = nil`. -/
def enableFalseServer : Server :=
  { name := "test-server",
    enable := some { all := false, capabilities := none },
    disable := none }

/-- Capability items from `pkg/interposer/items.go` (mcp-go item kinds,
restricted to the fields the interposer reads or rewrites; `uriTemplate`
holds the raw URI-template text returned by `URITemplate.Raw()`). -/
structure Tool where
  name : String
  description : String
  inputSchema : String
deriving DecidableEq

structure Prompt where
  name : String
  description : String
deriving DecidableEq

structure Resource where
  name : String
  uri : String
  description : String
deriving DecidableEq

structure ResourceTemplate where
  name : String
  uriTemplate : String
deriving DecidableEq

/-- Sum of the four item kinds handled by the generic `transform`. -/
inductive Item where
  | tool : Tool → Item
  | prompt : Prompt → Item
  | resource : Resource → Item
  | template : ResourceTemplate → Item
deriving DecidableEq

/-- Go `itemName` (items.go lines 29-48). -/
def itemName : Item → String
  | .tool v => v.name
  | .prompt v => v.name
  | .resource v => v.name
  | .template v => v.name

/-- Go `transform` (items.go lines 133-184): per-kind name rewriting. -/
def transform (name : String) : Item → Item
  | .tool v => .tool { v with name := name ++ "-" ++ v.name }
  | .prompt v => .prompt { v with name := name ++ "." ++ v.name }
  | .resource v =>
    .resource { v with name := name ++ "-" ++ v.name, uri := name ++ "+" ++ v.uri }
  | .template v =>
    .template { v with name := name ++ "-" ++ v.name,
                       uriTemplate := name ++ "+" ++ v.uriTemplate }

/-- Inverse of the rewrite, following the spec round-trip property
(`unrewrite` undoes the type-specific transform); built from the source's
`strings.TrimPrefix` operation with the separator of each type. -/
def unrewrite (b : String) : Item → Item
  | .tool v => .tool { v with name := trimPfx v.name (b ++ "-") }
  | .prompt v => .prompt { v with name := trimPfx v.name (b ++ ".") }
  | .resource v =>
    .resource { v with name := trimPfx v.name (b ++ "-"),
                       uri := trimPfx v.uri (b ++ "+") }
  | .template v =>
    .template { v with name := trimPfx v.name (b ++ "-"),
                       uriTemplate := trimPfx v.uriTemplate (b ++ "+") }

/-- Upstream `CallTool` request: target name plus the other parameters the
handler must not touch. -/
structure CallToolRequest where
  name : String
  args : List (String × String)
  meta : String
deriving DecidableEq

/-- Upstream `GetPrompt` request. -/
structure GetPromptRequest where
  name : String
  args : List (String × String)
deriving DecidableEq

/-- Upstream `ReadResource` request. -/
structure ReadResourceRequest where
  uri : String
  meta : String
deriving DecidableEq

/-- Resource-kind sum matching the `Resource` type-set constraint of
`handleResource` in items.go. -/
inductive ResItem where
  | res : Resource → ResItem
  | tmpl : ResourceTemplate → ResItem
deriving DecidableEq

/-- Go `handleTool` (items.go lines 365-382): the closure substitutes the
captured raw tool name into the request and forwards it; this function is
the request it hands to the backend client. -/
def handleTool (tool : Tool) (request : CallToolRequest) : CallToolRequest :=
  { request with name := tool.name }

/-- Go `handlePrompt` (items.go lines 384-401). -/
def handlePrompt (prompt : Prompt) (request : GetPromptRequest) :
    GetPromptRequest :=
  { request with name := prompt.name }

/-- Go `handleResource` (items.go lines 403-426): a static resource gets the
captured raw URI; a template read has the `name+` prefix trimmed from the
incoming URI. -/
def handleResource (name : String) (resource : ResItem)
    (request : ReadResourceRequest) : ReadResourceRequest :=
  match resource with
  | .res value => { request with uri := value.uri }
  | .tmpl _ => { request with uri := trimPfx request.uri (name ++ "+") }

/-- Key of the capability registry (part_006): capability type tag (the
registry uses the singular strings tool, prompt, resource, template) and the
qualified, post-rewrite name. -/
structure CapabilityKey where
  type : String
  name : String
deriving DecidableEq

/-- Capability registry (part_006): Go maps `capabilities` and `backendCaps`
modelled as functions into `Option`; the inner Go set `map[CapabilityKey]bool`
is modelled as a list whose membership is the set. -/
structure CapabilityRegistry where
  capabilities : CapabilityKey → Option String
  backendCaps : String → Option (List CapabilityKey)

/-- Go `NewCapabilityRegistry`: both indices empty. -/
def NewCapabilityRegistry : CapabilityRegistry :=
  { capabilities := fun _ => none, backendCaps := fun _ => none }

/-- Set insertion for the inner capability set (`m[key] = true`). -/
def setInsert (k : CapabilityKey) (l : List CapabilityKey) : List CapabilityKey :=
  if k ∈ l then l else k :: l

/-- Go `CapabilityRegistry.AddCapability` (part_006 lines 41-58): point the
key at the backend and add it to the backend set.  The prior owner of the
key, if different, is not touched. -/
def CapabilityRegistry.AddCapability (r : CapabilityRegistry)
    (backend capType capName : String) : CapabilityRegistry :=
  { capabilities := fun k =>
      if k = ⟨capType, capName⟩ then some backend else r.capabilities k,
    backendCaps := fun b =>
      if b = backend then
        some (setInsert ⟨capType, capName⟩ ((r.backendCaps backend).getD []))
      else r.backendCaps b }

/-- Go `CapabilityRegistry.RemoveCapability` (part_006 lines 61-84): look up
the owner; when present delete the key from both indices and report
`(backend, true)`, otherwise report `("", false)` leaving the state as is. -/
def CapabilityRegistry.RemoveCapability (r : CapabilityRegistry)
    (capType capName : String) : CapabilityRegistry × String × Bool :=
  match r.capabilities ⟨capType, capName⟩ with
  | none => (r, "", false)
  | some backend =>
    ({ capabilities := fun k =>
         if k = ⟨capType, capName⟩ then none else r.capabilities k,
       backendCaps := fun b =>
         if b = backend then
           (r.backendCaps b).map (fun s => s.filter (fun k2 => k2 != ⟨capType, capName⟩))
         else r.backendCaps b },
     backend, true)

/-- Group a key list into the Go `map[string][]string` returned by the bulk
registry queries. -/
def groupByType (keys : List CapabilityKey) : List (String × List String) :=
  ((keys.map (fun k => k.type)).eraseDups).map
    (fun t => (t, (keys.filter (fun k => k.type == t)).map (fun k => k.name)))

/-- Go `CapabilityRegistry.RemoveBackendCapabilities` (part_006 lines
86-119): drop every key of the backend set from `capabilities`, drop the
backend from `backendCaps`, and return the removed names grouped by type. -/
def CapabilityRegistry.RemoveBackendCapabilities (r : CapabilityRegistry)
    (backend : String) : CapabilityRegistry × List (String × List String) :=
  match r.backendCaps backend with
  | none => (r, [])
  | some keys =>
    ({ capabilities := fun k => if k ∈ keys then none else r.capabilities k,
       backendCaps := fun b => if b = backend then none else r.backendCaps b },
     groupByType keys)

/-- Go `CapabilityRegistry.GetCapabilitiesForBackend` (part_006 lines
132-154). -/
def CapabilityRegistry.GetCapabilitiesForBackend (r : CapabilityRegistry)
    (backend : String) : List (String × List String) :=
  groupByType ((r.backendCaps backend).getD [])

/-- Invariant I1 of the spec: a key is in the by-backend set of `b` exactly
when the capabilities index maps it to `b`. -/
def I1 (r : CapabilityRegistry) : Prop :=
  ∀ (k : CapabilityKey) (b : String),
    (∃ s, r.backendCaps b = some s ∧ k ∈ s) ↔ r.capabilities k = some b

/-- Registry state with the key (tool, t) owned by backend a consistently in
both indices; the starting point of the C3 counterexample. -/
def registryOwnedByA : CapabilityRegistry :=
  { capabilities := fun k => if k = ⟨"tool", "t"⟩ then some "a" else none,
    backendCaps := fun b => if b = "a" then some [⟨"tool", "t"⟩] else none }

/-- Facade registration of one tool: the name the upstream facade stores it
under, the transformed item, and the data captured by its handler closure
(the raw pre-rewrite tool and the backend client it forwards to). -/
structure ToolReg where
  regName : String
  item : Tool
  rawTool : Tool
  client : Nat
deriving DecidableEq

/-- Lookup of a registered tool by its facade name. -/
def facadeLookup (f : List ToolReg) (n : String) : Option ToolReg :=
  f.find? (fun e => e.regName == n)

/-- mcp-go `AddTool`: map insert keyed by the registered name. -/
def addToolToFacade (f : List ToolReg) (e : ToolReg) : List ToolReg :=
  e :: f.filter (fun x => x.regName != e.regName)

/-- mcp-go `DeleteTools`: bulk removal by facade name. -/
def DeleteTools (f : List ToolReg) (names : List String) : List ToolReg :=
  f.filter (fun e => !(names.contains e.regName))

/-- Engine state (part_005 `Interposer`): the clients map, the registry, the
upstream tool facade, and a trace of the client handles `Close` has been
called on. -/
structure InterpState where
  clients : List (String × Nat)
  registry : CapabilityRegistry
  facade : List ToolReg
  closed : List Nat

/-- Go `Interposer.RegisterTool` (part_005 lines 110-118): add the tool to
the facade under its (transformed) name and track it in the registry. -/
def RegisterTool (st : InterpState) (backendName : String) (tool rawTool : Tool)
    (client : Nat) : InterpState :=
  { st with facade := addToolToFacade st.facade ⟨tool.name, tool, rawTool, client⟩,
            registry := st.registry.AddCapability backendName "tool" tool.name }

/-- One iteration of the `addItems` loop body for a tool (items.go lines
114-121): transform, then register with a handler capturing the raw item. -/
def registerToolItem (st : InterpState) (cfgName : String) (client : Nat)
    (t : Tool) : InterpState :=
  match transform cfgName (.tool t) with
  | .tool tt => RegisterTool st cfgName tt t client
  | _ => st

/-- Registration of a flat item list (helper for reasoning about the
paginated loop). -/
def regToolList (st : InterpState) (cfgName : String) (client : Nat)
    (l : List Tool) : InterpState :=
  l.foldl (fun s t => registerToolItem s cfgName client t) st

/-- Go `addItems` + the policy filter of `addClientItems` (items.go lines
99-131 and 186-222), instantiated at tools: each page is filtered by
`cfg.Enabled` and the survivors are transformed and registered. -/
def addToolItems (st : InterpState) (cfg : Server) (client : Nat)
    (pages : List (List Tool)) : InterpState :=
  pages.foldl
    (fun s page =>
      (page.filter (fun t => cfg.Enabled "tools" t.name)).foldl
        (fun s2 t => registerToolItem s2 cfg.name client t) s)
    st

/-- Tool part of Go `addClientCapabilities` (part_005 lines 360-398): skip a
disabled server, skip when the Initialize result does not declare tools. -/
def addClientCapabilitiesTools (st : InterpState) (cfg : Server) (client : Nat)
    (toolsSupported : Bool) (pages : List (List Tool)) : InterpState :=
  if cfg.Disabled then st
  else if toolsSupported then addToolItems st cfg client pages
  else st

/-- Go `Interposer.AddBackend` (part_005 lines 82-108): factory, Initialize,
register capabilities, then store the client under `name` — with no
duplicate-name check and no `Close` of any previous client.  The factory
and Initialize outcomes are parameters; `pages` are the backend's ListTools
pages. -/
def AddBackend (st : InterpState) (name : String) (cfg : Server)
    (factoryResult : Except String Nat) (initOk toolsSupported : Bool)
    (pages : List (List Tool)) : Except String InterpState :=
  match factoryResult with
  | .error e => .error ("failed to create MCP client: " ++ e)
  | .ok mcpClient =>
    if initOk then
      .ok { addClientCapabilitiesTools st cfg mcpClient toolsSupported pages with
              clients :=
                mapInsert
                  (addClientCapabilitiesTools st cfg mcpClient toolsSupported pages).clients
                  name mcpClient }
    else .error "failed to initialize MCP client"

/-- Go `Interposer.RemoveTrackedCapabilities` (part_005 lines 150-178):
remove the backend's registry entries, bulk-delete its tools from the
facade, and emit the per-type notifications; returns the notification
list. -/
def RemoveTrackedCapabilities (st : InterpState) (backendName : String) :
    InterpState × List String :=
  match st.registry.RemoveBackendCapabilities backendName with
  | (reg2, removedByType) =>
    if removedByType.length == 0 then ({ st with registry := reg2 }, [])
    else
      let toolsPart :=
        match mapLookup removedByType "tool" with
        | some toolNames =>
          if toolNames.length > 0 then
            ({ st with registry := reg2,
                       facade := DeleteTools st.facade toolNames },
             ["toolsChange"])
          else ({ st with registry := reg2 }, [])
        | none => ({ st with registry := reg2 }, [])
      let promptNotifs :=
        match mapLookup removedByType "prompt" with
        | some _ => ["promptsChange"]
        | none => []
      let resNotifs :=
        if (mapLookup removedByType "resource").isSome ||
            (mapLookup removedByType "template").isSome then
          ["resourcesChange"]
        else []
      (toolsPart.1, toolsPart.2 ++ promptNotifs ++ resNotifs)

/-- Go `Interposer.removeBackend` (part_005 lines 930-956): when the name
has no stored client, return immediately; otherwise close the client (the
handle is appended to the `closed` trace), delete it from the map, and
remove its tracked capabilities. -/
def removeBackend (st : InterpState) (name : String) :
    InterpState × List String :=
  match mapLookup st.clients name with
  | none => (st, [])
  | some c =>
    RemoveTrackedCapabilities
      { st with clients := mapErase st.clients name, closed := st.closed ++ [c] }
      name

/-- Go `extractRawCapabilityNames` (part_005 lines 180-197): strip the
backend-name prefix plus one separator character from each qualified name
of the given type. -/
def extractRawCapabilityNames (name : String)
    (capsByType : List (String × List String)) (capType : String) :
    List String :=
  match mapLookup capsByType capType with
  | some capNames => capNames.map (fun capName => capName.drop (name.length + 1))
  | none => []

/-- Go `Interposer.processDisabledTools` (part_005 lines 638-667): for each
currently registered raw tool name that the new config no longer enables,
build `name ++ "." ++ toolName` (note the dot), remove that key from the
registry and collect it for bulk facade deletion. -/
def processDisabledTools (st : InterpState) (name : String)
    (capsByType : List (String × List String)) (newConfig : Server) :
    InterpState × Bool :=
  match (extractRawCapabilityNames name capsByType "tool").foldl
      (fun (a : CapabilityRegistry × List String × Bool) toolName =>
        if newConfig.Enabled "tools" toolName then a
        else
          ((a.1.RemoveCapability "tool" (name ++ "." ++ toolName)).1,
           a.2.1 ++ [name ++ "." ++ toolName], true))
      (st.registry, [], false) with
  | (reg2, toolsToRemove, toolsChanged) =>
    if toolsToRemove.length > 0 then
      ({ st with registry := reg2, facade := DeleteTools st.facade toolsToRemove },
       toolsChanged)
    else ({ st with registry := reg2 }, toolsChanged)

/-- Go `Interposer.processNewTools` (part_005 lines 669-701): register every
client tool that is enabled under the new config and not already
registered. -/
def processNewTools (st : InterpState) (name : String) (mcpClient : Nat)
    (currentTools : List String) (newConfig : Server) (clientTools : List Tool)
    (toolsChanged : Bool) : InterpState × Bool :=
  clientTools.foldl
    (fun (a : InterpState × Bool) tool =>
      if newConfig.Enabled "tools" tool.name && !(currentTools.contains tool.name) then
        (registerToolItem a.1 name mcpClient tool, true)
      else a)
    (st, toolsChanged)

/-- Go `Interposer.UpdateCapabilityConfig` (part_005 lines 199-262), tool
slice: client lookup, full-disable shortcut, `processDisabledTools`, then
the reinit path (`handleReinitCapabilities` → `handleToolReinit` →
`processNewTools`) when the enable/disable policies changed; returns the
state and the notifications sent.  The prompt/resource/template
re-enumeration of the reinit path is omitted: it only registers prompt,
resource and template entries and never touches a tool key or the tool
facade. -/
def UpdateCapabilityConfig (st : InterpState) (name : String)
    (oldConfig newConfig : Server) (initOk toolsSupported : Bool)
    (clientTools : List Tool) : Except String (InterpState × List String) :=
  match mapLookup st.clients name with
  | none => .error ("backend not found: " ++ name)
  | some mcpClient =>
    if newConfig.Disabled then .ok (removeBackend st name)
    else
      match processDisabledTools st name
          (st.registry.GetCapabilitiesForBackend name) newConfig with
      | (st1, toolsChanged0) =>
        let needsReinit :=
          !(CompareCapability oldConfig.enable newConfig.enable) ||
            !(CompareCapability oldConfig.disable newConfig.disable)
        match (if needsReinit && initOk && toolsSupported then
                 processNewTools st1 name mcpClient
                   (extractRawCapabilityNames name
                     (st.registry.GetCapabilitiesForBackend name) "tool")
                   newConfig clientTools toolsChanged0
               else (st1, toolsChanged0)) with
        | (st2, toolsChanged) =>
          .ok (st2, if toolsChanged then ["toolsChange"] else [])

/-- Go `Interposer.sendNotifications` (part_005 lines 819-840): the ordered
batch of change notifications emitted at the end of `Reconfigure`. -/
def sendNotifications (toolsChanged promptsChanged resourcesChanged
    templatesChanged : Bool) : List String :=
  (if toolsChanged then ["toolsChange"] else []) ++
    (if promptsChanged then ["promptsChange"] else []) ++
      (if resourcesChanged || templatesChanged then ["resourcesChange"] else [])

/-- Route-correctness target for one tool `x` of backend `cfgName`: the
facade has an entry under the rewritten name whose handler captured the raw
name and forwards to `client`. -/
def routesTo (st : InterpState) (cfgName : String) (client : Nat) (x : Tool) :
    Prop :=
  ∃ e, facadeLookup st.facade (cfgName ++ "-" ++ x.name) = some e ∧
    e.rawTool.name = x.name ∧ e.client = client

/-- Fixture for C5: backend b with the single registered tool `b-t1`
(raw name t1) in both the registry and the facade. -/
def c5Registry : CapabilityRegistry :=
  NewCapabilityRegistry.AddCapability "b" "tool" "b-t1"

def c5State : InterpState :=
  { clients := [("b", 1)],
    registry := c5Registry,
    facade := [⟨"b-t1", ⟨"b-t1", "d", "s"⟩, ⟨"t1", "d", "s"⟩, 1⟩],
    closed := [] }

/-- Old config of the C5 fixture: no policies. -/
def c5Old : Server := { name := "b" }

/-- New config of the C5 fixture: `disable: {tools: [t1]}` — not fully
disabled, but raw tool t1 is no longer allowed. -/
def c5New : Server :=
  { name := "b",
    disable := some { all := false, capabilities := some [("tools", ["t1"])] } }

/-- Fixture for the C9 witness: backend b stored with client handle 1. -/
def c9State : InterpState :=
  { clients := [("b", 1)], registry := NewCapabilityRegistry,
    facade := [], closed := [] }

/-- Config used by the C9 witness. -/
def c9Cfg : Server := { name := "b" }

/-- Fixture for the C1 witness (spec filesystem scenario): empty engine. -/
def fsState : InterpState :=
  { clients := [], registry := NewCapabilityRegistry, facade := [], closed := [] }

/-- Backend config of the C1 witness: no enable or disable policy. -/
def fsCfg : Server := { name := "filesystem" }

/-- The single ListTools page of the C1 witness. -/
def fsPage : List Tool :=
  [⟨"read_file", "rd", "s1"⟩, ⟨"write_file", "wr", "s2"⟩]

end Posuer

namespace Posuer

theorem mem_setInsert (k k2 : CapabilityKey) (l : List CapabilityKey) :
    k2 ∈ setInsert k l ↔ k2 = k ∨ k2 ∈ l := by
  unfold setInsert
  by_cases h : k ∈ l
  · simp only [if_pos h]
    constructor
    · exact Or.inr
    · rintro (rfl | h2)
      · exact h
      · exact h2
  · simp [if_neg h]

theorem removeCapability_I1 (r : CapabilityRegistry) (h : I1 r) (t n : String) :
    I1 (r.RemoveCapability t n).1 := by
  cases hcap : r.capabilities ⟨t, n⟩ with
  | none => simpa [CapabilityRegistry.RemoveCapability, hcap] using h
  | some backend =>
    simp only [CapabilityRegistry.RemoveCapability, hcap]
    intro k b
    dsimp only
    constructor
    · rintro ⟨s, hs, hks⟩
      by_cases hb : b = backend
      · subst hb
        rw [if_pos rfl] at hs
        cases hbc : r.backendCaps b with
        | none => rw [hbc] at hs; exact absurd hs (by simp)
        | some s0 =>
          rw [hbc] at hs
          simp only [Option.map_some'] at hs
          cases hs
          have hmem := List.mem_filter.mp hks
          have hne : k ≠ ⟨t, n⟩ := by simpa using hmem.2
          have hold : r.capabilities k = some b := (h k b).mp ⟨s0, hbc, hmem.1⟩
          simpa [if_neg hne] using hold
      · simp only [if_neg hb] at hs
        have hold : r.capabilities k = some b := (h k b).mp ⟨s, hs, hks⟩
        have hne : k ≠ ⟨t, n⟩ := by
          intro hk
          rw [hk, hcap] at hold
          exact hb (Option.some.inj hold).symm
        simpa [if_neg hne] using hold
    · intro hc
      by_cases hk : k = ⟨t, n⟩
      · rw [if_pos hk] at hc
        exact absurd hc (by simp)
      · rw [if_neg hk] at hc
        obtain ⟨s, hs, hks⟩ := (h k b).mpr hc
        by_cases hb : b = backend
        · subst hb
          refine ⟨s.filter (fun k2 => k2 != ⟨t, n⟩), ?_, ?_⟩
          · simp [hs]
          · exact List.mem_filter.mpr ⟨hks, by simpa using hk⟩
        · exact ⟨s, by simp [if_neg hb, hs], hks⟩

theorem removeBackendCapabilities_I1 (r : CapabilityRegistry) (h : I1 r)
    (backend : String) : I1 (r.RemoveBackendCapabilities backend).1 := by
  cases hbc : r.backendCaps backend with
  | none => simpa [CapabilityRegistry.RemoveBackendCapabilities, hbc] using h
  | some keys =>
    simp only [CapabilityRegistry.RemoveBackendCapabilities, hbc]
    intro k b
    dsimp only
    constructor
    · rintro ⟨s, hs, hks⟩
      by_cases hb : b = backend
      · rw [if_pos hb] at hs
        exact absurd hs (by simp)
      · rw [if_neg hb] at hs
        have hold : r.capabilities k = some b := (h k b).mp ⟨s, hs, hks⟩
        have hnk : k ∉ keys := by
          intro hk
          have : r.capabilities k = some backend := (h k backend).mp ⟨keys, hbc, hk⟩
          rw [hold] at this
          exact hb (Option.some.inj this)
        simpa [if_neg hnk] using hold
    · intro hc
      by_cases hk : k ∈ keys
      · rw [if_pos hk] at hc
        exact absurd hc (by simp)
      · rw [if_neg hk] at hc
        obtain ⟨s, hs, hks⟩ := (h k b).mpr hc
        by_cases hb : b = backend
        · subst hb
          rw [hbc] at hs
          cases hs
          exact absurd hks hk
        · exact ⟨s, by simp [if_neg hb, hs], hks⟩

theorem addCapability_I1 (r : CapabilityRegistry) (h : I1 r)
    (backend t n : String)
    (hfresh : ∀ b2, r.capabilities ⟨t, n⟩ = some b2 → b2 = backend) :
    I1 (r.AddCapability backend t n) := by
  intro k b
  constructor
  · rintro ⟨s, hs, hks⟩
    simp only [CapabilityRegistry.AddCapability] at hs ⊢
    by_cases hb : b = backend
    · subst hb
      rw [if_pos rfl] at hs
      cases hs
      rcases (mem_setInsert _ k _).mp hks with hk | hk
      · simp [hk]
      · cases hbc : r.backendCaps b with
        | none => rw [hbc] at hk; exact absurd hk (by simp)
        | some s0 =>
          rw [hbc] at hk
          simp only [Option.getD_some] at hk
          have hold : r.capabilities k = some b := (h k b).mp ⟨s0, hbc, hk⟩
          by_cases hkk : k = (⟨t, n⟩ : CapabilityKey)
          · simp [hkk]
          · simpa [if_neg hkk] using hold
    · rw [if_neg hb] at hs
      have hold : r.capabilities k = some b := (h k b).mp ⟨s, hs, hks⟩
      have hkk : k ≠ (⟨t, n⟩ : CapabilityKey) := by
        intro hk
        rw [hk] at hold
        exact hb (hfresh b hold)
      simpa [if_neg hkk] using hold
  · intro hc
    simp only [CapabilityRegistry.AddCapability] at hc ⊢
    by_cases hkk : k = (⟨t, n⟩ : CapabilityKey)
    · rw [if_pos hkk] at hc
      have hb : b = backend := (Option.some.inj hc).symm
      subst hb
      refine ⟨setInsert ⟨t, n⟩ ((r.backendCaps b).getD []), by simp, ?_⟩
      rw [hkk]
      exact (mem_setInsert _ _ _).mpr (Or.inl rfl)
    · rw [if_neg hkk] at hc
      obtain ⟨s, hs, hks⟩ := (h k b).mpr hc
      by_cases hb : b = backend
      · subst hb
        refine ⟨setInsert ⟨t, n⟩ ((r.backendCaps b).getD []), by simp, ?_⟩
        exact (mem_setInsert _ _ _).mpr (Or.inr (by simp [hs]; exact hks))
      · exact ⟨s, by simp [if_neg hb, hs], hks⟩

/-- Claim C2: name rewriting is exactly the spec separator table.  A tool is
renamed to `b + "-" + name`; a prompt to `b + "." + name`; a resource to
`b + "-" + name` with URI `b + "+" + uri`; a template to `b + "-" + name`
with raw template text `b + "+" + raw`; the remaining fields (stated here by
listing every field of each record) are unchanged. -/
theorem rewrite_separator_table (b : String) (t : Tool) (p : Prompt)
    (r : Resource) (tm : ResourceTemplate) :
    transform b (.tool t) = .tool ⟨b ++ "-" ++ t.name, t.description, t.inputSchema⟩ ∧
    transform b (.prompt p) = .prompt ⟨b ++ "." ++ p.name, p.description⟩ ∧
    transform b (.resource r) =
      .resource ⟨b ++ "-" ++ r.name, b ++ "+" ++ r.uri, r.description⟩ ∧
    transform b (.template tm) =
      .template ⟨b ++ "-" ++ tm.name, b ++ "+" ++ tm.uriTemplate⟩ :=
  ⟨rfl, rfl, rfl, rfl⟩

/-- Claim C3 counterexample: from an I1 state in which backend a owns the
key, `AddCapability` for backend b silently overwrites the owner but leaves
the key in the by-backend set of a, so I1 does not survive the silent
overwrite of a prior owner. -/
theorem addCapability_overwrite_breaks_I1 :
    I1 registryOwnedByA ∧
    ¬ I1 (registryOwnedByA.AddCapability "b" "tool" "t") := by
  constructor
  · intro k b
    constructor
    · rintro ⟨s, hs, hks⟩
      by_cases hb : b = "a"
      · subst hb
        simp only [registryOwnedByA, if_pos rfl] at hs
        cases hs
        have hk : k = ⟨"tool", "t"⟩ := by simpa using hks
        simp [registryOwnedByA, hk]
      · simp only [registryOwnedByA, if_neg hb] at hs
        exact absurd hs (by simp)
    · intro hc
      by_cases hk : k = (⟨"tool", "t"⟩ : CapabilityKey)
      · simp only [registryOwnedByA, if_pos hk] at hc
        have hb : b = "a" := (Option.some.inj hc).symm
        subst hb
        exact ⟨[⟨"tool", "t"⟩], by simp [registryOwnedByA], by simp [hk]⟩
      · simp only [registryOwnedByA, if_neg hk] at hc
        exact absurd hc (by simp)
  · intro h
    have hmem := (h ⟨"tool", "t"⟩ "a").mp
      ⟨[⟨"tool", "t"⟩], by decide, by decide⟩
    have : ("b" : String) = "a" := by
      have := hmem
      simp only [CapabilityRegistry.AddCapability, if_pos rfl] at this
      exact Option.some.inj this
    exact absurd this (by decide)

/-- Claim C3 (amended): `RemoveCapability` and `RemoveBackendCapabilities`
preserve I1 from every I1 state, and `AddCapability` preserves I1 provided
the key is fresh or already owned by the same backend; the silent overwrite
of a DIFFERENT prior owner (see the counterexample) is the one mutation that
breaks I1. -/
theorem registry_I1_preserved (r : CapabilityRegistry) (h : I1 r) :
    (∀ t n, I1 (r.RemoveCapability t n).1) ∧
    (∀ b, I1 (r.RemoveBackendCapabilities b).1) ∧
    (∀ b t n, (∀ b2, r.capabilities ⟨t, n⟩ = some b2 → b2 = b) →
      I1 (r.AddCapability b t n)) :=
  ⟨fun t n => removeCapability_I1 r h t n,
   fun b => removeBackendCapabilities_I1 r h b,
   fun b t n hfresh => addCapability_I1 r h b t n hfresh⟩

/-- Witness for the amended C3: applying the preservation theorem at the
empty registry. -/
theorem registry_I1_preserved_witness :
    I1 (NewCapabilityRegistry.AddCapability "a" "tool" "t") ∧
    I1 (NewCapabilityRegistry.RemoveCapability "tool" "t").1 := by
  have he : I1 NewCapabilityRegistry := by
    intro k b
    constructor
    · rintro ⟨s, hs, _⟩
      exact Option.noConfusion hs
    · intro hc
      exact Option.noConfusion hc
  have h := registry_I1_preserved NewCapabilityRegistry he
  exact ⟨h.2.2 "a" "tool" "t" (fun b2 hb2 => Option.noConfusion hb2),
         h.1 "tool" "t"⟩

/-- Claim C4 (code evaluated at the failing input): the server parsed from
`enable: false` — enable present, `All = false`, by-type map nil — is NOT
reported as disabled by `Server.Disabled`, and every capability stays
enabled, although the claim (and the repository README) says this explicit
empty whitelist disables the server. -/
theorem enableFalse_not_disabled :
    enableFalseServer.Disabled = false ∧
    enableFalseServer.Enabled "tools" "tool1" = true := by
  decide

/-- Claim C6: a raw name listed in the disable policy for its type is never
enabled, regardless of the enable policy. -/
theorem disable_overrides_enable (s : Server) (t n : String) (d : Capability)
    (lst : List String) (hd : s.disable = some d)
    (hlst : capLookup d.capabilities t = some lst) (hmem : n ∈ lst) :
    s.Enabled t n = false := by
  unfold Server.Enabled
  by_cases hdis : s.Disabled = true
  · simp [hdis]
  · have hdis2 : s.Disabled = false := by
      cases h : s.Disabled
      · rfl
      · exact absurd h hdis
    have hitem : s.disabled t n = true := by
      unfold Server.disabled
      rw [hdis2]
      simp only [Bool.false_eq_true, if_false, hd]
      by_cases hall : d.all = true
      · simp [hall]
      · have hall2 : d.all = false := by
          cases h : d.all
          · rfl
          · exact absurd h hall
        simp only [hall2, Bool.false_eq_true, if_false, hlst]
        simpa using hmem
    simp [hdis2, hitem]

/-- Witness for C6: the spec scenario — backend `mem` with
`enable: {tools: [t1]}` and `disable: {tools: [t1]}` — exposes no tool
`t1`. -/
theorem disable_overrides_enable_witness :
    ({ name := "mem",
       enable := some { all := false, capabilities := some [("tools", ["t1"])] },
       disable := some { all := false, capabilities := some [("tools", ["t1"])] }
     } : Server).Enabled "tools" "t1" = false :=
  disable_overrides_enable _ "tools" "t1"
    { all := false, capabilities := some [("tools", ["t1"])] } ["t1"]
    rfl rfl (by decide)

/-- Claim C8: the notifications emitted by the batch at the end of a single
`Reconfigure` are exactly the canonical ordered list
tools, prompts, resources filtered by the change flags: `toolsChange` first
when any tool changed, then `promptsChange` when any prompt changed, then a
single `resourcesChange` covering both resources and templates; nothing
else is emitted by this step. -/
theorem notification_order (tc pc rc tec : Bool) :
    sendNotifications tc pc rc tec =
      ["toolsChange", "promptsChange", "resourcesChange"].filter
        (fun n =>
          (n == "toolsChange" && tc) || (n == "promptsChange" && pc) ||
            (n == "resourcesChange" && (rc || tec))) := by
  cases tc <;> cases pc <;> cases rc <;> cases tec <;> decide

theorem trimPfx_append (p s : String) : trimPfx (p ++ s) p = s := by
  unfold trimPfx
  have hpre : p.data.isPrefixOf (p ++ s).data = true := by
    rw [String.data_append]
    simp
  rw [if_pos hpre]
  apply String.ext
  show (p ++ s).data.drop p.data.length = s.data
  rw [String.data_append]
  exact List.drop_left _ _

theorem string_append_left_cancel (a b c : String) (h : a ++ b = a ++ c) :
    b = c := by
  apply String.ext
  have h2 : a.data ++ b.data = a.data ++ c.data := by
    rw [← String.data_append, ← String.data_append, h]
  exact List.append_cancel_left h2

theorem find?_filter_regName (f : List ToolReg) (a n : String) (hne : n ≠ a) :
    (f.filter (fun x => x.regName != a)).find? (fun x => x.regName == n) =
      f.find? (fun x => x.regName == n) := by
  induction f with
  | nil => rfl
  | cons x xs ih =>
    rw [List.filter_cons]
    by_cases hx : x.regName = a
    · have h1 : (x.regName != a) = false := by simp [hx]
      have h2 : (x.regName == n) = false := by
        simp only [beq_eq_false_iff_ne, ne_eq]
        rw [hx]
        exact fun hc => hne hc.symm
      rw [if_neg (by simp [h1]), List.find?_cons, h2]
      exact ih
    · have h1 : (x.regName != a) = true := by simp [hx]
      rw [if_pos (by simp [h1]), List.find?_cons, List.find?_cons]
      cases hxn : (x.regName == n) with
      | true => rfl
      | false => exact ih

theorem facadeLookup_addTool (f : List ToolReg) (e : ToolReg) (n : String) :
    facadeLookup (addToolToFacade f e) n =
      if n = e.regName then some e else facadeLookup f n := by
  unfold facadeLookup addToolToFacade
  by_cases h : n = e.regName
  · rw [if_pos h, List.find?_cons_of_pos _ (by simp [h])]
  · rw [if_neg h, List.find?_cons_of_neg _ (by simp; exact fun hc => h hc.symm)]
    exact find?_filter_regName f e.regName n h

theorem mapLookup_insert {α : Type} (m : List (String × α)) (k : String) (v : α) :
    mapLookup (mapInsert m k v) k = some v := by
  unfold mapLookup mapInsert
  rw [List.find?_cons_of_pos _ (by simp)]
  rfl

theorem registerToolItem_eq (st : InterpState) (c : String) (cl : Nat) (t : Tool) :
    registerToolItem st c cl t =
      RegisterTool st c ⟨c ++ "-" ++ t.name, t.description, t.inputSchema⟩ t cl :=
  rfl

theorem registerToolItem_capabilities (st : InterpState) (c : String) (cl : Nat)
    (t : Tool) (k : CapabilityKey) (h : st.registry.capabilities k = some c) :
    (registerToolItem st c cl t).registry.capabilities k = some c := by
  rw [registerToolItem_eq]
  show (st.registry.AddCapability c "tool" _).capabilities k = some c
  unfold CapabilityRegistry.AddCapability
  dsimp only
  split
  · rfl
  · exact h

theorem registerToolItem_facadeHas (st : InterpState) (c : String) (cl : Nat)
    (t : Tool) (m : String) (h : (facadeLookup st.facade m).isSome = true) :
    (facadeLookup (registerToolItem st c cl t).facade m).isSome = true := by
  rw [registerToolItem_eq]
  show (facadeLookup (addToolToFacade st.facade _) m).isSome = true
  rw [facadeLookup_addTool]
  split
  · rfl
  · exact h

theorem regToolList_frame (c : String) (cl : Nat) (l : List Tool) :
    ∀ st : InterpState,
      (regToolList st c cl l).clients = st.clients ∧
      (regToolList st c cl l).closed = st.closed ∧
      (∀ k, st.registry.capabilities k = some c →
        (regToolList st c cl l).registry.capabilities k = some c) ∧
      (∀ m, (facadeLookup st.facade m).isSome = true →
        (facadeLookup (regToolList st c cl l).facade m).isSome = true) := by
  induction l with
  | nil => exact fun st => ⟨rfl, rfl, fun k h => h, fun m h => h⟩
  | cons t ts ih =>
    intro st
    have hstep := ih (registerToolItem st c cl t)
    have hl : regToolList st c cl (t :: ts) =
        regToolList (registerToolItem st c cl t) c cl ts := rfl
    refine ⟨?_, ?_, ?_, ?_⟩
    · rw [hl, hstep.1]; rfl
    · rw [hl, hstep.2.1]; rfl
    · intro k h
      rw [hl]
      exact hstep.2.2.1 k (registerToolItem_capabilities st c cl t k h)
    · intro m h
      rw [hl]
      exact hstep.2.2.2 m (registerToolItem_facadeHas st c cl t m h)

theorem addToolItems_eq_flat (cfg : Server) (cl : Nat) (pages : List (List Tool)) :
    ∀ st, addToolItems st cfg cl pages =
      regToolList st cfg.name cl
        (pages.flatMap (fun page => page.filter (fun t => cfg.Enabled "tools" t.name))) := by
  induction pages with
  | nil => exact fun st => rfl
  | cons p ps ih =>
    intro st
    have h1 : addToolItems st cfg cl (p :: ps) =
        addToolItems
          (regToolList st cfg.name cl (p.filter (fun t => cfg.Enabled "tools" t.name)))
          cfg cl ps := rfl
    rw [h1, ih, List.flatMap_cons]
    unfold regToolList
    rw [List.foldl_append]

theorem routesTo_register (st : InterpState) (c : String) (cl : Nat) (x y : Tool)
    (h : routesTo st c cl x) : routesTo (registerToolItem st c cl y) c cl x := by
  rw [registerToolItem_eq]
  obtain ⟨e, he, h1, h2⟩ := h
  unfold routesTo RegisterTool
  dsimp only
  rw [facadeLookup_addTool]
  by_cases hq : c ++ "-" ++ x.name = c ++ "-" ++ y.name
  · have hxy : x.name = y.name := string_append_left_cancel (c ++ "-") _ _ hq
    exact ⟨_, by rw [if_pos hq], hxy.symm, rfl⟩
  · exact ⟨e, by rw [if_neg hq]; exact he, h1, h2⟩

theorem routesTo_self (st : InterpState) (c : String) (cl : Nat) (x : Tool) :
    routesTo (registerToolItem st c cl x) c cl x := by
  rw [registerToolItem_eq]
  unfold routesTo RegisterTool
  dsimp only
  rw [facadeLookup_addTool]
  exact ⟨_, by rw [if_pos rfl], rfl, rfl⟩

theorem routesTo_regToolList (c : String) (cl : Nat) (l : List Tool) :
    ∀ (st : InterpState) (x : Tool), routesTo st c cl x →
      routesTo (regToolList st c cl l) c cl x := by
  induction l with
  | nil => exact fun st x h => h
  | cons y ys ih =>
    intro st x h
    exact ih (registerToolItem st c cl y) x (routesTo_register st c cl x y h)

theorem routesTo_of_mem (c : String) (cl : Nat) (l : List Tool) (x : Tool)
    (hx : x ∈ l) : ∀ st : InterpState, routesTo (regToolList st c cl l) c cl x := by
  induction l with
  | nil => cases hx
  | cons y ys ih =>
    intro st
    rcases List.mem_cons.mp hx with rfl | hmem
    · exact routesTo_regToolList c cl ys (registerToolItem st c cl x) x
        (routesTo_self st c cl x)
    · exact ih hmem (registerToolItem st c cl y)

theorem not_disabled_of_enabled (s : Server) (t n : String)
    (h : s.Enabled t n = true) : s.Disabled = false := by
  by_cases hd : s.Disabled = true
  · unfold Server.Enabled at h
    simp [hd] at h
  · exact Bool.eq_false_iff.mpr hd

/-- Claim C7: the rewrite round-trips.  Undoing the type-specific transform
(stripping the separator-joined backend prefix with the source's TrimPrefix
operation) recovers the original item for every kind; the forwarding
handlers substitute the captured raw name (tools, prompts) or raw URI
(static resources) into the request, undoing the rewrite exactly; and for
resource-template reads, trimming the prefix `b + "+"` from the rewritten
URI `b + "+" + u` yields `u` for every string `u`, leaving the other
request fields unchanged. -/
theorem rewrite_roundtrip (b u : String) (x : Item) (t : Tool) (p : Prompt)
    (r : Resource) (tm : ResourceTemplate) (reqT : CallToolRequest)
    (reqP : GetPromptRequest) (reqR : ReadResourceRequest) :
    unrewrite b (transform b x) = x ∧
    handleTool t reqT = { reqT with name := t.name } ∧
    handlePrompt p reqP = { reqP with name := p.name } ∧
    handleResource b (.res r) reqR = { reqR with uri := r.uri } ∧
    handleResource b (.tmpl tm) { reqR with uri := b ++ "+" ++ u } =
      { reqR with uri := u } ∧
    trimPfx (b ++ "+" ++ u) (b ++ "+") = u := by
  refine ⟨?_, rfl, rfl, rfl, ?_, trimPfx_append _ _⟩
  · cases x <;> simp [transform, unrewrite, trimPfx_append]
  · simp [handleResource, trimPfx_append]

/-- Claim C5 (code evaluated at the failing input): after a successful
`UpdateCapabilityConfig` for backend b with the new, not fully disabled,
config `disable: {tools: [t1]}`, the tool registered as `b-t1` whose raw
name t1 is no longer enabled is STILL present in the upstream facade and
still owned by b in the registry — `processDisabledTools` removed the
dot-joined name `b.t1`, which was never registered (last conjunct). -/
theorem updateCapabilityConfig_keeps_disallowed_tool :
    c5New.Disabled = false ∧
    c5New.Enabled "tools" "t1" = false ∧
    (UpdateCapabilityConfig c5State "b" c5Old c5New true true
        [⟨"t1", "d", "s"⟩]).toOption.map
        (fun res => ((facadeLookup res.1.facade "b-t1").isSome,
                     res.1.registry.capabilities ⟨"tool", "b-t1"⟩,
                     res.1.registry.capabilities ⟨"tool", "b.t1"⟩)) =
      some (true, some "b", none) := by
  refine ⟨by decide, by decide, ?_⟩
  decide

/-- Claim C10: removing a backend with no stored client is a silent no-op:
the state (clients map, registry, facade, Close trace) is returned
unchanged and no notification is sent — in particular
`RemoveTrackedCapabilities` is not reached. -/
theorem removeBackend_unknown_noop (st : InterpState) (name : String)
    (h : mapLookup st.clients name = none) :
    removeBackend st name = (st, []) := by
  unfold removeBackend
  rw [h]

/-- Witness for C10 at a concrete state. -/
theorem removeBackend_unknown_noop_witness :
    removeBackend
        { clients := [("a", 1)], registry := NewCapabilityRegistry,
          facade := [], closed := [] } "ghost" =
      ({ clients := [("a", 1)], registry := NewCapabilityRegistry,
         facade := [], closed := [] }, []) :=
  removeBackend_unknown_noop _ "ghost" rfl

theorem addClientCapabilitiesTools_frame (st : InterpState) (cfg : Server)
    (cl : Nat) (ts : Bool) (pages : List (List Tool)) :
    (addClientCapabilitiesTools st cfg cl ts pages).clients = st.clients ∧
    (addClientCapabilitiesTools st cfg cl ts pages).closed = st.closed ∧
    (∀ k, st.registry.capabilities k = some cfg.name →
      (addClientCapabilitiesTools st cfg cl ts pages).registry.capabilities k = some cfg.name) ∧
    (∀ m, (facadeLookup st.facade m).isSome = true →
      (facadeLookup (addClientCapabilitiesTools st cfg cl ts pages).facade m).isSome = true) := by
  unfold addClientCapabilitiesTools
  split
  · exact ⟨rfl, rfl, fun k h => h, fun m h => h⟩
  · split
    · rw [addToolItems_eq_flat]
      exact regToolList_frame cfg.name cl _ st
    · exact ⟨rfl, rfl, fun k h => h, fun m h => h⟩

/-- Claim C9: `AddBackend` performs no duplicate-name check.  Even when
`name` already has a stored client, a second `AddBackend` (with factory and
Initialize succeeding) returns no error, overwrites the stored client,
never calls `Close` on the previous client (the Close trace is unchanged),
and leaves the previous session's registry entries and facade registrations
in place alongside the new ones. -/
theorem addBackend_no_duplicate_check (st : InterpState) (name : String)
    (cfg : Server) (oldClient newClient : Nat) (toolsSupported : Bool)
    (pages : List (List Tool))
    (hprev : mapLookup st.clients name = some oldClient) :
    ∃ st2, AddBackend st name cfg (Except.ok newClient) true toolsSupported pages =
        Except.ok st2 ∧
      mapLookup st2.clients name = some newClient ∧
      st2.closed = st.closed ∧
      (∀ k, st.registry.capabilities k = some cfg.name →
        st2.registry.capabilities k = some cfg.name) ∧
      (∀ m, (facadeLookup st.facade m).isSome = true →
        (facadeLookup st2.facade m).isSome = true) := by
  have hframe := addClientCapabilitiesTools_frame st cfg newClient toolsSupported pages
  refine ⟨_, rfl, mapLookup_insert _ name newClient, hframe.2.1, hframe.2.2.1,
          hframe.2.2.2⟩

/-- Witness for C9: backend b already stored with client 1; adding it again
with client 2. -/
theorem addBackend_no_duplicate_check_witness :
    mapLookup c9State.clients "b" = some 1 ∧
    (∃ st2, AddBackend c9State "b" c9Cfg (Except.ok 2) true true
          [[⟨"t1", "d", "s"⟩]] = Except.ok st2 ∧
      mapLookup st2.clients "b" = some 2 ∧
      st2.closed = c9State.closed ∧
      (∀ k, c9State.registry.capabilities k = some c9Cfg.name →
        st2.registry.capabilities k = some c9Cfg.name) ∧
      (∀ m, (facadeLookup c9State.facade m).isSome = true →
        (facadeLookup st2.facade m).isSome = true)) :=
  ⟨rfl, addBackend_no_duplicate_check c9State "b" c9Cfg 1 2 true
    [[⟨"t1", "d", "s"⟩]] rfl⟩

/-- Claim C1 (route correctness, tool pipeline): after a successful
`AddBackend`, every tool the backend listed that passed the policy filter
is registered with the upstream facade under its rewritten name
`cfg.name ++ "-" ++ x.name` together with a handler closure capturing the
raw pre-rewrite name and the backend client, and an upstream `CallTool` on
the rewritten name is forwarded to that client carrying the raw name with
all other request parameters unchanged. -/
theorem addBackend_route_correct (st : InterpState) (name : String)
    (cfg : Server) (client : Nat) (pages : List (List Tool)) (x : Tool)
    (pg : List Tool) (hpg : pg ∈ pages) (hx : x ∈ pg)
    (hen : cfg.Enabled "tools" x.name = true) :
    ∃ st2, AddBackend st name cfg (Except.ok client) true true pages =
        Except.ok st2 ∧
      mapLookup st2.clients name = some client ∧
      ∃ e, facadeLookup st2.facade (cfg.name ++ "-" ++ x.name) = some e ∧
        e.rawTool.name = x.name ∧ e.client = client ∧
        ∀ req : CallToolRequest,
          handleTool e.rawTool req = { req with name := x.name } := by
  have hnd : cfg.Disabled = false := not_disabled_of_enabled cfg "tools" x.name hen
  refine ⟨_, rfl, mapLookup_insert _ name client, ?_⟩
  have hst1 : addClientCapabilitiesTools st cfg client true pages =
      addToolItems st cfg client pages := by
    unfold addClientCapabilitiesTools
    rw [if_neg (by rw [hnd]; exact Bool.false_ne_true), if_pos rfl]
  have hflat : x ∈ pages.flatMap
      (fun page => page.filter (fun t => cfg.Enabled "tools" t.name)) :=
    List.mem_flatMap.mpr ⟨pg, hpg, List.mem_filter.mpr ⟨hx, hen⟩⟩
  have hroute : routesTo (addClientCapabilitiesTools st cfg client true pages)
      cfg.name client x := by
    rw [hst1, addToolItems_eq_flat]
    exact routesTo_of_mem cfg.name client _ x hflat st
  obtain ⟨e, he, h1, h2⟩ := hroute
  refine ⟨e, he, h1, h2, ?_⟩
  intro req
  unfold handleTool
  rw [h1]

/-- Witness for C1: the spec filesystem scenario — backend `filesystem`
with no policies exposing `read_file`; the rewritten name is
`filesystem-read_file` and the handler forwards the raw name. -/
theorem addBackend_route_correct_witness :
    fsCfg.Enabled "tools" "read_file" = true ∧
    (∃ st2, AddBackend fsState "filesystem" fsCfg (Except.ok 7) true true
          [fsPage] = Except.ok st2 ∧
      mapLookup st2.clients "filesystem" = some 7 ∧
      ∃ e, facadeLookup st2.facade (fsCfg.name ++ "-" ++ "read_file") = some e ∧
        e.rawTool.name = "read_file" ∧ e.client = 7 ∧
        ∀ req : CallToolRequest,
          handleTool e.rawTool req = { req with name := "read_file" }) :=
  ⟨by decide,
   addBackend_route_correct fsState "filesystem" fsCfg 7 [fsPage]
     ⟨"read_file", "rd", "s1"⟩ fsPage (by decide) (by decide) (by decide)⟩

end Posuer
